import Mathlib

/-!
Verification of the Bandix dashboard's client-side telemetry pipeline.

The repository contains two parallel implementations of the same pipeline:
a vanilla-JS application (`app.js`, here "vanilla") and a React/TypeScript
application (`bandixApi.ts`, `Index.tsx`, `ClientsTable.tsx`, here "React").
Both are embedded below.  JavaScript strings are modelled as Lean `String`s,
with the string operations the code uses (`localeCompare`, `toLowerCase`,
`split('.')[0]`, `trim`) implemented by structural recursion over the
underlying character lists so they evaluate inside the kernel.  JavaScript
numbers that the code only ever adds, subtracts and compares are modelled as
`Int`; chart sample values, which the code divides, are modelled as `ℚ`.
-/

namespace Bandix

/-! ### JavaScript string primitives -/

/-- Code-point lexicographic comparison of character lists, returning the
sign (`-1`/`0`/`1`) that `String.prototype.localeCompare` produces on the
ASCII identifiers this application compares (the application lower-cases
host names before comparing, so locale tailoring of case never applies). -/
def lexCompare : List Char → List Char → Int
  | [], [] => 0
  | [], _ :: _ => -1
  | _ :: _, [] => 1
  | a :: as, b :: bs => if a < b then -1 else if b < a then 1 else lexCompare as bs

/-- `a.localeCompare(b)` on two strings. -/
def localeCompare (a b : String) : Int := lexCompare a.data b.data

/-- `s.toLowerCase()`. -/
def jsToLower (s : String) : String := List.asString (s.data.map Char.toLower)

/-- `s.split('.')[0]`: everything before the first dot (the whole string when
there is no dot). -/
def splitHead (s : String) : String :=
  List.asString (s.data.takeWhile (fun c => c != '.'))

/-- `s.trim()`: strip whitespace from both ends (used only by the
spec-refinement definition for claim C9; the source never trims). -/
def jsTrim (s : String) : String :=
  List.asString (((s.data.dropWhile Char.isWhitespace).reverse.dropWhile
    Char.isWhitespace).reverse)

/-! ### Data model (the `ClientTraffic` / `BandwidthSnapshot` / `TotalTraffic`
/ `BandixStatus` interfaces of the types module) -/

structure SpeedLimit where
  enabled : Bool
  downloadLimit : Int
  uploadLimit : Int
deriving DecidableEq

/-- `ClientTraffic`: one device record.  `hostname` and `speedLimit` are the
optional fields of the TypeScript interface; the byte counters and rates are
required numbers. -/
structure Client where
  ip : String
  mac : String
  hostname : Option String
  download : Int
  upload : Int
  downloadSpeed : Int
  uploadSpeed : Int
  lastSeen : Int
  speedLimit : Option SpeedLimit
deriving DecidableEq

/-- `BandwidthSnapshot`: one timestamped aggregate throughput sample. -/
structure Snap where
  timestamp : Int
  download : ℚ
  upload : ℚ
deriving DecidableEq

structure TotalTraffic where
  download : Int
  upload : Int
  combined : Int
deriving DecidableEq

/-- `BandixStatus` (the `interface` field is named `iface` here). -/
structure BandixStatus where
  running : Bool
  iface : String
  uptime : Int
  version : Option String
deriving DecidableEq

/-! ### Formatter utility used by sorting -/

/-- `shortHostname` from the formatters module:
`if (!hostname) return 'Unknown'; return hostname.split('.')[0]`.
Both `undefined` and the empty string are falsy in JavaScript. -/
def shortHostname : Option String → String
  | none => "Unknown"
  | some s => if s = "" then "Unknown" else splitHead s

/-! ### Sort engine (`ClientsTable.tsx`, `sortedClients` and `handleSort`) -/

inductive SortField
  | hostname
  | ip
  | download
  | upload
  | downloadSpeed
  | uploadSpeed
deriving DecidableEq

inductive SortDirection
  | asc
  | desc
deriving DecidableEq

/-- The normalized key a device's display name is compared by:
`shortHostname(a.hostname).toLowerCase()`. -/
def nameKey (h : Option String) : String := jsToLower (shortHostname h)

/-- The string branch of the comparator:
`asc ? aVal.localeCompare(bVal) : bVal.localeCompare(aVal)`. -/
def strCompare : SortDirection → String → String → Int
  | .asc, sa, sb => localeCompare sa sb
  | .desc, sa, sb => localeCompare sb sa

/-- The numeric branch of the comparator: `asc ? aVal - bVal : bVal - aVal`. -/
def numCompare : SortDirection → Int → Int → Int
  | .asc, na, nb => na - nb
  | .desc, na, nb => nb - na

/-- The comparator of `sortedClients`.  For the `hostname` field the code
replaces both values by `shortHostname(·.hostname).toLowerCase()` and takes
the string branch; `ip` values are strings; the four counter/rate fields are
required numbers in the `ClientTraffic` interface, so the `?? ''` fallback is
never taken for them and the numeric branch applies. -/
def clientCompare (f : SortField) (d : SortDirection) (a b : Client) : Int :=
  match f with
  | .hostname => strCompare d (nameKey a.hostname) (nameKey b.hostname)
  | .ip => strCompare d a.ip b.ip
  | .download => numCompare d a.download b.download
  | .upload => numCompare d a.upload b.upload
  | .downloadSpeed => numCompare d a.downloadSpeed b.downloadSpeed
  | .uploadSpeed => numCompare d a.uploadSpeed b.uploadSpeed

/-- Insert `x` into the accumulator (kept in reverse order, most recent
first): `x` is placed in front of the first earlier element `y` with
`le y x`, i.e. in the forward order `x` lands directly after the last element
it does not strictly precede. -/
def insertRev (le : α → α → Bool) (x : α) : List α → List α
  | [] => [x]
  | y :: ys => if le y x then x :: y :: ys else y :: insertRev le x ys

/-- Stable sort by insertion, modelling `Array.prototype.sort` (which
ECMAScript requires to be stable): an element moves in front of another only
when the comparator strictly orders it earlier, so elements the comparator
ties keep their input order. -/
def stableSort (le : α → α → Bool) (l : List α) : List α :=
  (l.foldl (fun acc x => insertRev le x acc) []).reverse

/-- `sortedClients` of `ClientsTable.tsx`: a sorted copy of the device list
(the input is spread into a fresh array, never mutated). -/
def sortedClients (f : SortField) (d : SortDirection) (l : List Client) :
    List Client :=
  stableSort (fun a b => clientCompare f d a b ≤ 0) l

structure SortState where
  field : SortField
  dir : SortDirection
deriving DecidableEq

def flipDir : SortDirection → SortDirection
  | .asc => .desc
  | .desc => .asc

/-- `handleSort` of `ClientsTable.tsx` (identical logic in the vanilla
table-header click handler): clicking the active field toggles the
direction, clicking a new field selects it descending. -/
def handleSort (s : SortState) (f : SortField) : SortState :=
  if s.field = f then
    { field := s.field, dir := if s.dir = .asc then .desc else .asc }
  else
    { field := f, dir := .desc }

/-! ### Generic facts about the stable sort -/

theorem sublist_insertRev (le : α → α → Bool) (x : α) (acc : List α) :
    List.Sublist acc (insertRev le x acc) := by
  induction acc with
  | nil => simp [insertRev]
  | cons y ys ih =>
    simp only [insertRev]
    cases hle : le y x
    · simpa using ih.cons₂ y
    · simp only [cond_true, if_true]
      exact List.sublist_cons_self x (y :: ys)

theorem mem_insertRev_self (le : α → α → Bool) (x : α) (acc : List α) :
    x ∈ insertRev le x acc := by
  induction acc with
  | nil => simp [insertRev]
  | cons y ys ih =>
    simp only [insertRev]
    cases hle : le y x
    · simp only [cond_false, Bool.false_eq_true, if_false, List.mem_cons]
      exact Or.inr ih
    · simp

theorem insertRev_pair (le : α → α → Bool) (b : α) (acc : List α) (a : α)
    (ha : a ∈ acc) (hab : le a b = true) :
    List.Sublist [b, a] (insertRev le b acc) := by
  induction acc with
  | nil => cases ha
  | cons y ys ih =>
    simp only [insertRev]
    cases hyb : le y b
    · rcases List.mem_cons.mp ha with rfl | ha'
      · rw [hab] at hyb; cases hyb
      · simpa using (ih ha').cons y
    · have h1 : List.Sublist [a] (y :: ys) := List.singleton_sublist.mpr ha
      simpa using h1.cons₂ b

theorem foldl_insert_stable (le : α → α → Bool) (a b : α) (hab : le a b = true) :
    ∀ (l acc : List α),
      (List.Sublist [a, b] l ∨ (a ∈ acc ∧ b ∈ l) ∨ List.Sublist [b, a] acc) →
      List.Sublist [b, a] (l.foldl (fun acc x => insertRev le x acc) acc)
  | [], acc, h => by
    rcases h with h | ⟨_, hb⟩ | h
    · simp at h
    · cases hb
    · simpa using h
  | x :: xs, acc, h => by
    simp only [List.foldl_cons]
    rcases h with h | ⟨haacc, hb⟩ | h
    · cases h with
      | cons _ h' =>
        exact foldl_insert_stable le a b hab xs _ (Or.inl h')
      | cons₂ _ h' =>
        exact foldl_insert_stable le a b hab xs _
          (Or.inr (Or.inl ⟨mem_insertRev_self le a acc,
            List.singleton_sublist.mp h'⟩))
    · rcases List.mem_cons.mp hb with rfl | hb'
      · exact foldl_insert_stable le a b hab xs _
          (Or.inr (Or.inr (insertRev_pair le b acc a haacc hab)))
      · exact foldl_insert_stable le a b hab xs _
          (Or.inr (Or.inl ⟨(sublist_insertRev le x acc).mem haacc, hb'⟩))
    · exact foldl_insert_stable le a b hab xs _
        (Or.inr (Or.inr (h.trans (sublist_insertRev le x acc))))

/-- Pair stability of the stable sort, for an arbitrary boolean comparison:
if `a` precedes `b` in the input and `le a b` holds (in particular whenever
the comparator ties them), then `a` still precedes `b` in the output. -/
theorem stableSort_pair_stable (le : α → α → Bool) (l : List α) (a b : α)
    (hab : le a b = true) (hsub : List.Sublist [a, b] l) :
    List.Sublist [a, b] (stableSort le l) := by
  have h := (foldl_insert_stable le a b hab l [] (Or.inl hsub)).reverse
  simpa [stableSort] using h

theorem insertRev_perm (le : α → α → Bool) (x : α) (acc : List α) :
    List.Perm (insertRev le x acc) (x :: acc) := by
  induction acc with
  | nil => simp [insertRev]
  | cons y ys ih =>
    simp only [insertRev]
    cases hle : le y x
    · exact (ih.cons y).trans (List.Perm.swap x y ys)
    · simp

theorem foldl_insert_perm (le : α → α → Bool) :
    ∀ (l acc : List α),
      List.Perm (l.foldl (fun acc x => insertRev le x acc) acc) (l ++ acc)
  | [], acc => by simp
  | x :: xs, acc => by
    simp only [List.foldl_cons]
    have h1 := foldl_insert_perm le xs (insertRev le x acc)
    have h2 : List.Perm (xs ++ insertRev le x acc) (xs ++ (x :: acc)) :=
      List.Perm.append_left xs (insertRev_perm le x acc)
    have h3 : List.Perm (xs ++ (x :: acc)) (x :: (xs ++ acc)) :=
      List.perm_middle
    simpa using (h1.trans h2).trans h3

/-- The stable sort permutes its input: no element is dropped or added. -/
theorem stableSort_perm (le : α → α → Bool) (l : List α) :
    List.Perm (stableSort le l) l := by
  have h := foldl_insert_perm le l []
  have h2 : List.Perm (stableSort le l)
      (l.foldl (fun acc x => insertRev le x acc) []) :=
    List.reverse_perm _
  simpa using h2.trans h

/-! ### History buffer (`historyBuffer` in the API client; identically
`state.history` in the vanilla app) -/

/-- One append to the history buffer:
`historyBuffer.push(point); if (historyBuffer.length > 60) historyBuffer.shift()`.
`push` inserts at the tail, `shift` removes the head (the oldest entry). -/
def histAppend (buf : List Snap) (s : Snap) : List Snap :=
  let b := buf ++ [s]
  if 60 < b.length then b.tail else b

/-- The buffer obtained by a whole sequence of appends, starting empty. -/
def histAppendAll (xs : List Snap) : List Snap := xs.foldl histAppend []

/-! ### Stat aggregation (`refreshData` totals in the vanilla app;
`totalDownloadSpeed` / `totalUploadSpeed` in `Index.tsx`) -/

/-- `state.totalTraffic` as computed in the vanilla `refreshData`:
three `reduce` folds over the client list. -/
def totalTraffic (clients : List Client) : TotalTraffic :=
  { download := clients.foldl (fun sum c => sum + c.download) 0
    upload := clients.foldl (fun sum c => sum + c.upload) 0
    combined := clients.foldl (fun sum c => sum + c.download + c.upload) 0 }

/-- `clients.reduce((sum, c) => sum + c.downloadSpeed, 0)` in `Index.tsx`. -/
def totalDownloadSpeed (clients : List Client) : Int :=
  clients.foldl (fun sum c => sum + c.downloadSpeed) 0

/-- `clients.reduce((sum, c) => sum + c.uploadSpeed, 0)` in `Index.tsx`. -/
def totalUploadSpeed (clients : List Client) : Int :=
  clients.foldl (fun sum c => sum + c.uploadSpeed) 0

/-! ### Chart renderer (`updateChart` in the vanilla app) -/

/-- `state.history.flatMap(p => [p.download, p.upload])`. -/
def allChartValues (hist : List Snap) : List ℚ :=
  hist.flatMap (fun p => [p.download, p.upload])

/-- `Math.max(...allValues, 1)`: the vertical scale denominator. -/
def chartMaxValue (hist : List Snap) : ℚ :=
  (allChartValues hist).foldl max 1

/-- The divisor of `stepX = chartWidth / (points - 1 || 1)`: `points - 1`,
except `1` when that is `0` (JavaScript `0 || 1`). -/
def chartStepDivisor (hist : List Snap) : Nat :=
  if hist.length - 1 = 0 then 1 else hist.length - 1

structure ChartDims where
  width : ℚ
  height : ℚ
deriving DecidableEq

/-- The polyline of one series: point `i` of value `v` maps to
`x = padding.left + i * stepX`,
`y = height - padding.bottom - (v / maxValue) * chartHeight`
(all four paddings are 10). -/
def seriesPoints (vals : List ℚ) (dims : ChartDims) (maxValue stepX : ℚ) :
    List (ℚ × ℚ) :=
  vals.enum.map (fun p =>
    (10 + (p.1 : ℚ) * stepX,
     dims.height - 10 - (p.2 / maxValue) * (dims.height - 20)))

/-- `updateChart`: with an empty history the function returns before any
draw call (`if (!chart || !state.history.length) return`); otherwise it
clears the canvas and draws exactly two filled/stroked series (download then
upload), whose polylines are returned here. -/
def updateChart (hist : List Snap) (dims : ChartDims) : List (List (ℚ × ℚ)) :=
  if hist.length = 0 then []
  else
    let chartWidth := dims.width - 20
    let maxValue := chartMaxValue hist
    let stepX := chartWidth / (chartStepDivisor hist : ℚ)
    [seriesPoints (hist.map (fun p => p.download)) dims maxValue stepX,
     seriesPoints (hist.map (fun p => p.upload)) dims maxValue stepX]

/-! ### Poll scheduler

The vanilla `refreshData` begins with `if (state.isRefreshing) return;` and
then sets the flag, clearing it in a `finally`; the React `refreshData`
(`Index.tsx`) sets `isRefreshing` unconditionally and runs the cycle with no
reentrancy check.  A `trigger` event is a timer tick or a manual refresh
click reaching `refreshData`; a `complete` event is the `finally` block of
an in-flight cycle.  `inflight` counts cycles currently in flight. -/

structure SchedState where
  isRefreshing : Bool
  inflight : Nat
deriving DecidableEq

inductive SchedEvent
  | trigger
  | complete
deriving DecidableEq

/-- Vanilla scheduler transition: a trigger while `isRefreshing` is dropped. -/
def vanillaStep (s : SchedState) : SchedEvent → SchedState
  | .trigger =>
    if s.isRefreshing then s
    else { isRefreshing := true, inflight := s.inflight + 1 }
  | .complete => { isRefreshing := false, inflight := s.inflight - 1 }

/-- React scheduler transition: `refreshData` has no guard, every trigger
starts a cycle. -/
def reactStep (s : SchedState) : SchedEvent → SchedState
  | .trigger => { isRefreshing := true, inflight := s.inflight + 1 }
  | .complete => { isRefreshing := false, inflight := s.inflight - 1 }

/-- Run a scheduler from the initial state (idle, nothing in flight). -/
def runSched (step : SchedState → SchedEvent → SchedState)
    (evts : List SchedEvent) : SchedState :=
  evts.foldl step { isRefreshing := false, inflight := 0 }

/-! ### Data-access client and the poll-cycle commit

A read's outcome is modelled as `Option`: `some payload` for a successful,
well-formed response, `none` for a network failure, non-ok status or
malformed body. -/

/-- Vanilla `fetchClients`: `catch` returns `[]`. -/
def fetchClientsV (r : Option (List Client)) : List Client :=
  match r with
  | some cs => cs
  | none => []

/-- Vanilla `fetchHistory`: `catch` returns `[]`. -/
def fetchHistoryV (r : Option (List Snap)) : List Snap :=
  match r with
  | some hs => hs
  | none => []

/-- Vanilla `fetchStatus`: `catch` returns
`{ running: false, interface: 'unknown', uptime: 0 }`. -/
def fetchStatusV (r : Option BandixStatus) : BandixStatus :=
  match r with
  | some st => st
  | none => { running := false, iface := "unknown", uptime := 0, version := none }

/-- The state the vanilla `refreshData` owns and replaces each cycle. -/
structure StoreV where
  clients : List Client
  history : List Snap
  status : BandixStatus
  totals : TotalTraffic
deriving DecidableEq

/-- One vanilla poll cycle: `Promise.all` over the three fetches (each of
which has already converted failure to its default, so the combination never
rejects), then the committed state.  Totals are recomputed from the fetched
client list. -/
def vanillaRefreshCommit (rc : Option (List Client)) (rh : Option (List Snap))
    (rs : Option BandixStatus) : StoreV :=
  let cs := fetchClientsV rc
  { clients := cs
    history := fetchHistoryV rh
    status := fetchStatusV rs
    totals := totalTraffic cs }

/-- React `fetchClients` (`bandixApi.ts`): a failed response throws
(`if (!response.ok) throw new Error('Failed to fetch clients')`). -/
def fetchClientsR (r : Option (List Client)) : Except String (List Client) :=
  match r with
  | some cs => .ok cs
  | none => .error "Failed to fetch clients"

/-- React `fetchHistory`: throws on failure. -/
def fetchHistoryR (r : Option (List Snap)) : Except String (List Snap) :=
  match r with
  | some hs => .ok hs
  | none => .error "Failed to fetch history"

/-- React `fetchTotalTraffic`: throws on failure. -/
def fetchTotalR (r : Option TotalTraffic) : Except String TotalTraffic :=
  match r with
  | some t => .ok t
  | none => .error "Failed to fetch stats"

/-- React `fetchStatus`: throws on failure. -/
def fetchStatusR (r : Option BandixStatus) : Except String BandixStatus :=
  match r with
  | some st => .ok st
  | none => .error "Failed to fetch status"

/-- The state the React `refreshData` owns. -/
structure StoreR where
  clients : List Client
  history : List Snap
  totals : Option TotalTraffic
  status : Option BandixStatus
deriving DecidableEq

/-- One React poll cycle (`Index.tsx` `refreshData`): `Promise.all` over the
four fetches rejects as soon as any one of them throws, the `catch` only
logs, and none of the four `set...` calls runs — the previous state is kept
wholesale. -/
def reactRefreshCommit (prev : StoreR) (rc : Option (List Client))
    (rh : Option (List Snap)) (rt : Option TotalTraffic)
    (rs : Option BandixStatus) : StoreR :=
  match fetchClientsR rc, fetchHistoryR rh, fetchTotalR rt, fetchStatusR rs with
  | .ok cs, .ok hs, .ok t, .ok st =>
    { clients := cs, history := hs, totals := some t, status := some st }
  | _, _, _, _ => prev

/-! ### The vanilla (untyped) table sort of `updateClientsTable`

The vanilla app has no type layer, so any field of a client object may be
absent.  `let aVal = a[state.sortField] || ''` turns a falsy value (absent
field, `0`, or the empty string) into `''`; the comparator then branches on
`typeof aVal === 'string'`. -/

/-- A JavaScript value as seen by the vanilla comparator. -/
inductive JVal
  | num (n : Int)
  | str (s : String)
deriving DecidableEq

/-- JavaScript `ToString` on the values reaching `localeCompare`'s argument
position (integers print in decimal; strings are unchanged). -/
def JVal.asString : JVal → String
  | .num n => Int.repr n
  | .str s => s

/-- JavaScript `ToNumber` on the values reaching the `-` operator.  The only
string that can reach the numeric branch is `''` (the falsy fallback of the
OTHER operand), and `ToNumber('') = 0`. -/
def JVal.asNum : JVal → Int
  | .num n => n
  | .str _ => 0

/-- A client object of the vanilla app: every field the sort can touch may
be absent. -/
structure JClient where
  ip : Option String
  mac : Option String
  hostname : Option String
  download : Option Int
  upload : Option Int
  downloadSpeed : Option Int
  uploadSpeed : Option Int
deriving DecidableEq

/-- `a[field] || ''` for a numeric field: an absent field or the value `0`
(both falsy) become the empty string. -/
def jsFalsyNum : Option Int → JVal
  | none => .str ""
  | some n => if n = 0 then .str "" else .num n

/-- `a[field] || ''` for a string field. -/
def jsFalsyStr : Option String → String
  | none => ""
  | some s => s

/-- The value the vanilla comparator compares for one client:
`aVal = a[state.sortField] || ''`, then for the hostname field
`aVal = shortHostname(aVal).toLowerCase()` (and `shortHostname('')` is
`'Unknown'`). -/
def jFieldVal (f : SortField) (c : JClient) : JVal :=
  match f with
  | .hostname =>
    .str (jsToLower (if jsFalsyStr c.hostname = "" then "Unknown"
      else splitHead (jsFalsyStr c.hostname)))
  | .ip => .str (jsFalsyStr c.ip)
  | .download => jsFalsyNum c.download
  | .upload => jsFalsyNum c.upload
  | .downloadSpeed => jsFalsyNum c.downloadSpeed
  | .uploadSpeed => jsFalsyNum c.uploadSpeed

/-- The vanilla comparator body, which can throw.  `typeof aVal === 'string'`
selects the string branch: ascending it calls `aVal.localeCompare(bVal)`,
whose argument is coerced to a string; descending it calls
`bVal.localeCompare(aVal)`, which is a TypeError — modelled as `none` —
whenever `bVal` is a number, because `Number` has no `localeCompare` method.
The numeric branch subtracts, coercing a (necessarily empty) string operand
to `0`. -/
def jvalCompareOpt (d : SortDirection) (av bv : JVal) : Option Int :=
  match av with
  | .str sa =>
    match d with
    | .asc => some (localeCompare sa bv.asString)
    | .desc =>
      match bv with
      | .str sb => some (localeCompare sb sa)
      | .num _ => none
  | .num na => some (numCompare d na bv.asNum)

/-- The comparator of `updateClientsTable` (`none` = the comparator threw). -/
def jClientCompareOpt (f : SortField) (d : SortDirection) (a b : JClient) :
    Option Int :=
  jvalCompareOpt d (jFieldVal f a) (jFieldVal f b)

/-- `insertRev` for a comparison that can throw: the first comparison that
throws aborts the whole sort (`none`). -/
def insertRevM (cmp : α → α → Option Bool) (x : α) : List α → Option (List α)
  | [] => some [x]
  | y :: ys =>
    match cmp y x with
    | none => none
    | some true => some (x :: y :: ys)
    | some false => Option.map (fun zs => y :: zs) (insertRevM cmp x ys)

/-- Fold `insertRevM` over the input, propagating a thrown comparison. -/
def foldInsertM (cmp : α → α → Option Bool) : List α → List α → Option (List α)
  | [], acc => some acc
  | x :: xs, acc =>
    match insertRevM cmp x acc with
    | none => none
    | some acc' => foldInsertM cmp xs acc'

/-- `stableSort` for a comparison that can throw: `some output` when every
comparison the sort performs returns, `none` when one throws — the sort
produces no output at all, as `Array.prototype.sort` does when the
comparator raises. -/
def stableSortM (cmp : α → α → Option Bool) (l : List α) : Option (List α) :=
  Option.map List.reverse (foldInsertM cmp l [])

/-- `[...state.clients].sort(comparator)` in `updateClientsTable`: `none`
when the comparator throws during the sort. -/
def jSortedClients (f : SortField) (d : SortDirection) (l : List JClient) :
    Option (List JClient) :=
  stableSortM (fun a b => (jClientCompareOpt f d a b).map (fun v => v ≤ 0)) l

/-! ### Spec-refinement definitions

These two definitions follow the words of the specification (not the
source); they exist to be compared against the source-derived definitions
above. -/

/-- Refinement of claim C5's words: a device whose display name is missing
sorts as if its name key were the empty string (present names keep the
code's normalized key). -/
def specNameKeyMissingEmpty (h : Option String) : String :=
  match h with
  | none => ""
  | some s => nameKey (some s)

/-- Sorting by display name as claim C5 describes it: the comparator uses
`specNameKeyMissingEmpty` in place of the code's key. -/
def specNameSortMissingEmpty (d : SortDirection) (l : List Client) :
    List Client :=
  stableSort (fun a b =>
    strCompare d (specNameKeyMissingEmpty a.hostname)
      (specNameKeyMissingEmpty b.hostname) ≤ 0) l

/-- Refinement of claim C9's words: the display-name order key is "trimmed,
case-folded and domain-suffix-stripped". -/
def specTrimmedNameKey (s : String) : String :=
  jsToLower (splitHead (jsTrim s))

/-! ### Facts about the history buffer -/

theorem histAppend_eq_drop (buf : List Snap) (s : Snap) (h : buf.length ≤ 60) :
    histAppend buf s = (buf ++ [s]).drop ((buf ++ [s]).length - 60) := by
  simp only [histAppend]
  by_cases hlen : 60 < (buf ++ [s]).length
  · rw [if_pos hlen]
    have h61 : (buf ++ [s]).length = 61 := by
      simp only [List.length_append, List.length_singleton] at hlen ⊢
      omega
    rw [h61]
    have h1 : (61 : Nat) - 60 = 1 := rfl
    rw [h1, List.drop_one]
  · rw [if_neg hlen]
    have h0 : (buf ++ [s]).length - 60 = 0 := by omega
    rw [h0, List.drop_zero]

theorem foldl_histAppend_eq (xs : List Snap) : ∀ buf : List Snap,
    buf.length ≤ 60 →
    xs.foldl histAppend buf = (buf ++ xs).drop ((buf ++ xs).length - 60) := by
  induction xs with
  | nil =>
    intro buf h
    simp only [List.foldl_nil, List.append_nil]
    have h0 : buf.length - 60 = 0 := by omega
    rw [h0, List.drop_zero]
  | cons x xs ih =>
    intro buf h
    rw [List.foldl_cons]
    have hd : histAppend buf x = (buf ++ [x]).drop ((buf ++ [x]).length - 60) :=
      histAppend_eq_drop buf x h
    have hlen : (histAppend buf x).length ≤ 60 := by
      rw [hd, List.length_drop]
      omega
    rw [ih _ hlen, hd]
    have hk : (buf ++ [x]).length - 60 ≤ (buf ++ [x]).length := by omega
    rw [← List.drop_append_of_le_length hk, List.drop_drop]
    have hl : ((buf ++ [x]) ++ xs) = buf ++ x :: xs := by simp
    rw [hl]
    have hidx : ((buf ++ [x]).length - 60) +
        ((List.drop ((buf ++ [x]).length - 60) (buf ++ x :: xs)).length - 60) =
        (buf ++ x :: xs).length - 60 := by
      simp only [List.length_append, List.length_drop, List.length_singleton,
        List.length_cons, List.length_nil]
      omega
    rw [hidx]

/-! ### Facts about `foldl max` -/

theorem le_foldl_max (l : List ℚ) : ∀ q : ℚ, q ≤ l.foldl max q := by
  induction l with
  | nil => intro q; simp
  | cons x xs ih =>
    intro q
    exact le_trans (le_max_left q x) (ih (max q x))

theorem mem_le_foldl_max (l : List ℚ) : ∀ (q v : ℚ), v ∈ l → v ≤ l.foldl max q := by
  induction l with
  | nil => intro q v hv; cases hv
  | cons x xs ih =>
    intro q v hv
    rcases List.mem_cons.mp hv with rfl | hv'
    · exact le_trans (le_max_right q v) (le_foldl_max xs (max q v))
    · exact ih _ v hv'

theorem foldl_max_mem (l : List ℚ) : ∀ q : ℚ, l.foldl max q = q ∨ l.foldl max q ∈ l := by
  induction l with
  | nil => intro q; left; rfl
  | cons x xs ih =>
    intro q
    rw [List.foldl_cons]
    rcases ih (max q x) with h | h
    · rcases max_choice q x with hm | hm
      · left; rw [h, hm]
      · right; rw [h, hm]; exact List.mem_cons_self x xs
    · right; exact List.mem_cons.mpr (Or.inr h)

/-! ### Facts about the string primitives -/

theorem lexCompare_self (l : List Char) : lexCompare l l = 0 := by
  induction l with
  | nil => rfl
  | cons c cs ih => simp [lexCompare, ih]

theorem strCompare_self (d : SortDirection) (s : String) : strCompare d s s = 0 := by
  cases d <;> simp [strCompare, localeCompare, lexCompare_self]

theorem toDigitsCore_ne_nil (b : Nat) : ∀ (fuel n : Nat) (ds : List Char),
    Nat.toDigitsCore b (fuel + 1) n ds ≠ [] := by
  intro fuel
  induction fuel with
  | zero =>
    intro n ds
    rw [Nat.toDigitsCore]
    by_cases h : n / b = 0 <;> simp [h, Nat.toDigitsCore]
  | succ f ih =>
    intro n ds
    rw [Nat.toDigitsCore]
    by_cases h : n / b = 0
    · simp [h]
    · simpa [h] using ih (n / b) (Nat.digitChar (n % b) :: ds)

theorem natRepr_data_ne_nil (n : Nat) : (Nat.repr n).data ≠ [] :=
  toDigitsCore_ne_nil 10 n n []

theorem intRepr_data_ne_nil (n : Int) : (Int.repr n).data ≠ [] := by
  cases n with
  | ofNat m => exact natRepr_data_ne_nil m
  | negSucc m =>
    show ("-" ++ Nat.repr (m + 1)).data ≠ []
    rw [String.data_append]
    simp

/-- The empty string (a missing — or zero-valued — numeric field after the
falsy fallback) compares strictly below every number's decimal form in the
ascending string branch. -/
theorem jvalCompareOpt_empty_lt_num (n : Int) :
    jvalCompareOpt .asc (.str "") (.num n) = some (-1) := by
  show some (lexCompare "".data (Int.repr n).data) = some (-1)
  cases hr : (Int.repr n).data with
  | nil => exact absurd hr (intRepr_data_ne_nil n)
  | cons c cs => rfl

/-! ### The vanilla scheduler's reentrancy invariant -/

def schedInv (s : SchedState) : Prop :=
  s.inflight = if s.isRefreshing then 1 else 0

theorem vanillaStep_inv (s : SchedState) (e : SchedEvent) (h : schedInv s) :
    schedInv (vanillaStep s e) := by
  cases e with
  | trigger =>
    cases hr : s.isRefreshing with
    | true => simpa [vanillaStep, hr] using h
    | false =>
      simp only [schedInv, hr, if_false] at h
      simp [vanillaStep, hr, schedInv, h]
  | complete =>
    cases hr : s.isRefreshing with
    | true =>
      simp only [schedInv, hr, if_true] at h
      simp [vanillaStep, schedInv, h]
    | false =>
      simp only [schedInv, hr, if_false] at h
      simp [vanillaStep, schedInv, h]

theorem foldl_vanillaStep_inv (evts : List SchedEvent) : ∀ s : SchedState,
    schedInv s → schedInv (evts.foldl vanillaStep s) := by
  induction evts with
  | nil => intro s h; simpa using h
  | cons e es ih =>
    intro s h
    rw [List.foldl_cons]
    exact ih _ (vanillaStep_inv s e h)

/-! ### Sums -/

theorem foldl_add_eq_sum (f : Client → Int) (l : List Client) : ∀ a : Int,
    l.foldl (fun s c => s + f c) a = a + (l.map f).sum := by
  induction l with
  | nil => intro a; simp
  | cons c cs ih =>
    intro a
    rw [List.foldl_cons, ih (a + f c)]
    simp [add_assoc]

theorem sum_map_add_fields (l : List Client) :
    (l.map (fun c => c.download + c.upload)).sum =
      (l.map (fun c => c.download)).sum + (l.map (fun c => c.upload)).sum := by
  induction l with
  | nil => simp
  | cons c cs ih =>
    simp only [List.map_cons, List.sum_cons, ih]
    ring

/-! ### Facts about the fallible stable sort -/

theorem insertRevM_sublist (cmp : α → α → Option Bool) (x : α) :
    ∀ (acc r : List α), insertRevM cmp x acc = some r → List.Sublist acc r := by
  intro acc
  induction acc with
  | nil =>
    intro r h
    simp only [insertRevM, Option.some.injEq] at h
    subst h
    exact List.nil_sublist _
  | cons y ys ih =>
    intro r h
    cases hc : cmp y x with
    | none => simp [insertRevM, hc] at h
    | some b =>
      cases b with
      | true =>
        simp [insertRevM, hc] at h
        subst h
        exact List.sublist_cons_self x (y :: ys)
      | false =>
        cases hrec : insertRevM cmp x ys with
        | none => simp [insertRevM, hc, hrec] at h
        | some zs =>
          simp [insertRevM, hc, hrec] at h
          subst h
          exact (ih zs hrec).cons₂ y

theorem insertRevM_mem_self (cmp : α → α → Option Bool) (x : α) :
    ∀ (acc r : List α), insertRevM cmp x acc = some r → x ∈ r := by
  intro acc
  induction acc with
  | nil =>
    intro r h
    simp only [insertRevM, Option.some.injEq] at h
    subst h
    exact List.mem_singleton_self x
  | cons y ys ih =>
    intro r h
    cases hc : cmp y x with
    | none => simp [insertRevM, hc] at h
    | some b =>
      cases b with
      | true =>
        simp [insertRevM, hc] at h
        subst h
        exact List.mem_cons_self x _
      | false =>
        cases hrec : insertRevM cmp x ys with
        | none => simp [insertRevM, hc, hrec] at h
        | some zs =>
          simp [insertRevM, hc, hrec] at h
          subst h
          exact List.mem_cons_of_mem y (ih zs hrec)

theorem insertRevM_pair (cmp : α → α → Option Bool) (b : α) :
    ∀ (acc r : List α) (a : α), a ∈ acc → cmp a b = some true →
      insertRevM cmp b acc = some r → List.Sublist [b, a] r := by
  intro acc
  induction acc with
  | nil =>
    intro r a ha
    cases ha
  | cons y ys ih =>
    intro r a ha hab h
    cases hc : cmp y b with
    | none => simp [insertRevM, hc] at h
    | some bb =>
      cases bb with
      | true =>
        simp [insertRevM, hc] at h
        subst h
        exact (List.singleton_sublist.mpr ha).cons₂ b
      | false =>
        rcases List.mem_cons.mp ha with rfl | ha'
        · rw [hab] at hc
          simp at hc
        · cases hrec : insertRevM cmp b ys with
          | none => simp [insertRevM, hc, hrec] at h
          | some zs =>
            simp [insertRevM, hc, hrec] at h
            subst h
            exact (ih zs a ha' hab hrec).cons y

theorem insertRevM_perm (cmp : α → α → Option Bool) (x : α) :
    ∀ (acc r : List α), insertRevM cmp x acc = some r →
      List.Perm r (x :: acc) := by
  intro acc
  induction acc with
  | nil =>
    intro r h
    simp only [insertRevM, Option.some.injEq] at h
    subst h
    exact List.Perm.refl _
  | cons y ys ih =>
    intro r h
    cases hc : cmp y x with
    | none => simp [insertRevM, hc] at h
    | some b =>
      cases b with
      | true =>
        simp [insertRevM, hc] at h
        subst h
        exact List.Perm.refl _
      | false =>
        cases hrec : insertRevM cmp x ys with
        | none => simp [insertRevM, hc, hrec] at h
        | some zs =>
          simp [insertRevM, hc, hrec] at h
          subst h
          exact ((ih zs hrec).cons y).trans (List.Perm.swap x y ys)

theorem foldInsertM_perm (cmp : α → α → Option Bool) :
    ∀ (l acc r : List α), foldInsertM cmp l acc = some r →
      List.Perm r (l ++ acc) := by
  intro l
  induction l with
  | nil =>
    intro acc r h
    simp only [foldInsertM, Option.some.injEq] at h
    subst h
    simp
  | cons x xs ih =>
    intro acc r h
    cases hins : insertRevM cmp x acc with
    | none => simp [foldInsertM, hins] at h
    | some acc' =>
      simp only [foldInsertM, hins] at h
      have h1 := ih acc' r h
      have h2 : List.Perm (xs ++ acc') (xs ++ (x :: acc)) :=
        List.Perm.append_left xs (insertRevM_perm cmp x acc acc' hins)
      have h3 : List.Perm (xs ++ (x :: acc)) (x :: (xs ++ acc)) :=
        List.perm_middle
      simpa using (h1.trans h2).trans h3

theorem foldInsertM_stable (cmp : α → α → Option Bool) (a b : α)
    (hab : cmp a b = some true) :
    ∀ (l acc r : List α), foldInsertM cmp l acc = some r →
      (List.Sublist [a, b] l ∨ (a ∈ acc ∧ b ∈ l) ∨ List.Sublist [b, a] acc) →
      List.Sublist [b, a] r := by
  intro l
  induction l with
  | nil =>
    intro acc r h hd
    simp only [foldInsertM, Option.some.injEq] at h
    subst h
    rcases hd with hd | ⟨_, hb⟩ | hd
    · simp at hd
    · cases hb
    · exact hd
  | cons x xs ih =>
    intro acc r h hd
    cases hins : insertRevM cmp x acc with
    | none => simp [foldInsertM, hins] at h
    | some acc' =>
      simp only [foldInsertM, hins] at h
      rcases hd with hd | ⟨haacc, hb⟩ | hd
      · cases hd with
        | cons _ h' => exact ih acc' r h (Or.inl h')
        | cons₂ _ h' =>
          exact ih acc' r h (Or.inr (Or.inl
            ⟨insertRevM_mem_self cmp a acc acc' hins,
              List.singleton_sublist.mp h'⟩))
      · rcases List.mem_cons.mp hb with rfl | hb'
        · exact ih acc' r h (Or.inr (Or.inr
            (insertRevM_pair cmp b acc acc' a haacc hab hins)))
        · exact ih acc' r h (Or.inr (Or.inl
            ⟨(insertRevM_sublist cmp x acc acc' hins).mem haacc, hb'⟩))
      · exact ih acc' r h (Or.inr (Or.inr
          (hd.trans (insertRevM_sublist cmp x acc acc' hins))))

/-- The fallible stable sort permutes its input whenever it completes. -/
theorem stableSortM_perm (cmp : α → α → Option Bool) (l out : List α)
    (h : stableSortM cmp l = some out) : List.Perm out l := by
  cases hf : foldInsertM cmp l [] with
  | none => simp [stableSortM, hf] at h
  | some m =>
    simp [stableSortM, hf] at h
    subst h
    have h1 := foldInsertM_perm cmp l [] m hf
    have h2 : List.Perm m.reverse m := List.reverse_perm m
    simpa using h2.trans h1

/-- Pair stability of the fallible stable sort, on every sort that
completes: if `a` precedes `b` in the input and the comparison ties them,
`a` still precedes `b` in the produced output. -/
theorem stableSortM_pair_stable (cmp : α → α → Option Bool) (l out : List α)
    (a b : α) (hab : cmp a b = some true) (hsub : List.Sublist [a, b] l)
    (h : stableSortM cmp l = some out) : List.Sublist [a, b] out := by
  cases hf : foldInsertM cmp l [] with
  | none => simp [stableSortM, hf] at h
  | some m =>
    simp [stableSortM, hf] at h
    subst h
    have h1 := foldInsertM_stable cmp a b hab l [] m hf (Or.inl hsub)
    simpa using h1.reverse

/-! ### Concrete example records used by witnesses and counterexamples -/

/-- The "b" device of the spec's stability example (tied sort value). -/
def exTieB : Client :=
  { ip := "10.0.0.2", mac := "BB:00:00:00:00:02", hostname := some "b"
    download := 0, upload := 0, downloadSpeed := 1, uploadSpeed := 1
    lastSeen := 0, speedLimit := none }

/-- The "a" device of the spec's stability example (tied sort value). -/
def exTieA : Client :=
  { ip := "10.0.0.1", mac := "AA:00:00:00:00:01", hostname := some "a"
    download := 0, upload := 0, downloadSpeed := 1, uploadSpeed := 1
    lastSeen := 0, speedLimit := none }

/-- A device with no hostname. -/
def exAnon : Client :=
  { ip := "192.168.1.5", mac := "EE:00:00:00:00:05", hostname := none
    download := 0, upload := 0, downloadSpeed := 0, uploadSpeed := 0
    lastSeen := 0, speedLimit := none }

/-- A device whose hostname is "alpha". -/
def exAlpha : Client :=
  { ip := "192.168.1.6", mac := "FF:00:00:00:00:06", hostname := some "alpha"
    download := 0, upload := 0, downloadSpeed := 0, uploadSpeed := 0
    lastSeen := 0, speedLimit := none }

/-- A device whose hostname carries a leading space. -/
def exSpaced : Client :=
  { ip := "192.168.1.7", mac := "11:00:00:00:00:07", hostname := some " Router"
    download := 0, upload := 0, downloadSpeed := 0, uploadSpeed := 0
    lastSeen := 0, speedLimit := none }

/-- A device named "router". -/
def exRouter : Client :=
  { ip := "192.168.1.8", mac := "22:00:00:00:00:08", hostname := some "router"
    download := 0, upload := 0, downloadSpeed := 0, uploadSpeed := 0
    lastSeen := 0, speedLimit := none }

/-- A device named "Router.local". -/
def exRouterLocal : Client :=
  { ip := "192.168.1.9", mac := "33:00:00:00:00:09", hostname := some "Router.local"
    download := 0, upload := 0, downloadSpeed := 0, uploadSpeed := 0
    lastSeen := 0, speedLimit := none }

/-- First device of the spec's totals example: download 100, upload 50. -/
def exTot1 : Client :=
  { ip := "10.0.0.3", mac := "44:00:00:00:00:01", hostname := none
    download := 100, upload := 50, downloadSpeed := 0, uploadSpeed := 0
    lastSeen := 0, speedLimit := none }

/-- Second device of the spec's totals example: download 200, upload 25. -/
def exTot2 : Client :=
  { ip := "10.0.0.4", mac := "44:00:00:00:00:02", hostname := none
    download := 200, upload := 25, downloadSpeed := 0, uploadSpeed := 0
    lastSeen := 0, speedLimit := none }

/-- A client fetched successfully in the React abort counterexample. -/
def exFetched : Client :=
  { ip := "192.168.1.100", mac := "AA:BB:CC:DD:EE:01", hostname := some "iPhone-John"
    download := 1, upload := 1, downloadSpeed := 1, uploadSpeed := 1
    lastSeen := 0, speedLimit := none }

/-- Vanilla-table device with download rate 0 (falsy: coerced to `''`). -/
def jZeroA : JClient :=
  { ip := some "192.168.1.20", mac := some "AB:00:00:00:00:01"
    hostname := some "cam-a", download := some 10, upload := some 10
    downloadSpeed := some 0, uploadSpeed := some 0 }

/-- A second vanilla-table device with download rate 0. -/
def jZeroB : JClient :=
  { ip := some "192.168.1.21", mac := some "AB:00:00:00:00:02"
    hostname := some "cam-b", download := some 10, upload := some 10
    downloadSpeed := some 0, uploadSpeed := some 0 }

/-- A vanilla-table device with a nonzero download rate. -/
def jFive : JClient :=
  { ip := some "192.168.1.22", mac := some "AB:00:00:00:00:03"
    hostname := some "pc", download := some 10, upload := some 10
    downloadSpeed := some 5, uploadSpeed := some 5 }

/-- A vanilla-table device whose download rate field is absent. -/
def jMissing : JClient :=
  { ip := some "192.168.1.23", mac := some "AB:00:00:00:00:04"
    hostname := some "ghost", download := some 10, upload := some 10
    downloadSpeed := none, uploadSpeed := none }

/-- The "b" vanilla-table device with download rate 1 (tied with `jTieA`). -/
def jTieB : JClient :=
  { ip := some "192.168.1.24", mac := some "AB:00:00:00:00:05"
    hostname := some "b", download := some 10, upload := some 10
    downloadSpeed := some 1, uploadSpeed := some 1 }

/-- The "a" vanilla-table device with download rate 1 (tied with `jTieB`). -/
def jTieA : JClient :=
  { ip := some "192.168.1.25", mac := some "AB:00:00:00:00:06"
    hostname := some "a", download := some 10, upload := some 10
    downloadSpeed := some 1, uploadSpeed := some 1 }

/-! ## Claim C1 — poll-cycle mutual exclusion -/

/-- C1 counterexample: in the React pipeline a second trigger arriving while
the first cycle is still in flight starts a second concurrent cycle — after
two triggers and no completion, two cycles are in flight, violating the
claimed bound of one. -/
theorem react_trigger_overlaps :
    (runSched reactStep [.trigger, .trigger]).inflight = 2 ∧
      ¬ (runSched reactStep [.trigger, .trigger]).inflight ≤ 1 := by
  decide

/-- C1 (amended): under every pattern of triggers and completions, the
vanilla scheduler keeps at most one poll cycle in flight, and a trigger
arriving while it is Refreshing leaves the state unchanged (silently
dropped).  The React `refreshData` has no such guard. -/
theorem vanilla_refresh_no_overlap :
    (∀ evts : List SchedEvent, (runSched vanillaStep evts).inflight ≤ 1) ∧
      (∀ n : Nat, vanillaStep ⟨true, n⟩ .trigger = ⟨true, n⟩) := by
  constructor
  · intro evts
    have h := foldl_vanillaStep_inv evts ⟨false, 0⟩ rfl
    unfold schedInv at h
    unfold runSched
    rw [h]
    cases (evts.foldl vanillaStep ⟨false, 0⟩).isRefreshing <;> simp
  · intro n
    rfl

/-! ## Claim C2 — bounded FIFO history buffer -/

/-- C2: starting from an empty buffer, any sequence of appends leaves at
most 60 snapshots; the resulting buffer is exactly the sequence of appended
snapshots with the oldest dropped first (`drop (n - 60)`), i.e. the 60 most
recent snapshots in their original order, and it is a subsequence of the
appended sequence (so any ordering of the inputs, such as non-decreasing
timestamps, is preserved). -/
theorem history_buffer_capacity_fifo : ∀ xs : List Snap,
    (histAppendAll xs).length ≤ 60 ∧
      histAppendAll xs = xs.drop (xs.length - 60) ∧
      List.Sublist (histAppendAll xs) xs := by
  intro xs
  have h := foldl_histAppend_eq xs [] (by simp)
  simp only [List.nil_append] at h
  refine ⟨?_, h, ?_⟩
  · rw [histAppendAll, h, List.length_drop]
    omega
  · rw [histAppendAll, h]
    exact List.drop_sublist _ _

/-! ## Claim C3 — per-read fallbacks never abort a cycle -/

/-- C3 counterexample: in the React pipeline, one failing read (status)
aborts the whole cycle — the successfully fetched client list is not
committed and the previous store is kept wholesale. -/
theorem react_cycle_aborts_on_single_failure :
    reactRefreshCommit ⟨[], [], none, none⟩
        (some [exFetched]) (some []) (some ⟨0, 0, 0⟩) none =
      ⟨[], [], none, none⟩ ∧
      (reactRefreshCommit ⟨[], [], none, none⟩
        (some [exFetched]) (some []) (some ⟨0, 0, 0⟩) none).clients ≠
        [exFetched] := by
  constructor
  · rfl
  · intro h
    simp [reactRefreshCommit, fetchClientsR, fetchHistoryR, fetchTotalR,
      fetchStatusR, exFetched] at h

/-- C3 (amended): in the vanilla pipeline each read independently falls back
to its safe default — empty client list, empty history,
`{running: false, interface: "unknown", uptime: 0}` — and the cycle always
commits: a failing read never prevents the other results (or the recomputed
totals) from being committed. -/
theorem vanilla_cycle_independent_defaults :
    ∀ (rc : Option (List Client)) (rh : Option (List Snap))
      (rs : Option BandixStatus) (cs : List Client) (hs : List Snap)
      (st : BandixStatus),
      (vanillaRefreshCommit none rh rs).clients = [] ∧
        (vanillaRefreshCommit rc none rs).history = [] ∧
        (vanillaRefreshCommit rc rh none).status =
          ⟨false, "unknown", 0, none⟩ ∧
        (vanillaRefreshCommit (some cs) rh rs).clients = cs ∧
        (vanillaRefreshCommit rc (some hs) rs).history = hs ∧
        (vanillaRefreshCommit rc rh (some st)).status = st ∧
        (vanillaRefreshCommit none rh rs).totals = ⟨0, 0, 0⟩ := by
  intro rc rh rs cs hs st
  exact ⟨rfl, rfl, rfl, rfl, rfl, rfl, rfl⟩

/-! ## Claim C4 — sort stability -/

/-- C4 counterexample: in the vanilla `updateClientsTable`, descending by
download rate, the devices `jZeroA` and `jZeroB` compare equal (both rates
are 0, coerced to `''` by `|| ''`), yet sorting a list that also contains a
nonzero-rate device produces no output at all: the descending string branch
reaches `bVal.localeCompare` with `bVal` a number and throws, so the tied
pair does not appear in any output — the universal stability claim fails at
this input for the vanilla entry point. -/
theorem vanilla_sort_crashes_with_tied_pair :
    jClientCompareOpt .downloadSpeed .desc jZeroA jZeroB = some 0 ∧
      jSortedClients .downloadSpeed .desc [jZeroA, jZeroB, jFive] = none := by
  decide

/-- C4 (amended): the typed React `sortedClients` is stable for every list,
field and direction — devices the comparator ties keep their input order;
the vanilla `updateClientsTable` sort is stable on every sort it completes —
whenever it produces an output, devices its comparator ties keep their input
order (but a falsy-coerced value compared descending against a present
nonzero value makes the comparator throw, and no output is produced). -/
theorem sort_stable_both :
    (∀ (f : SortField) (d : SortDirection) (l : List Client) (a b : Client),
        List.Sublist [a, b] l → clientCompare f d a b = 0 →
        List.Sublist [a, b] (sortedClients f d l)) ∧
      (∀ (f : SortField) (d : SortDirection) (l out : List JClient)
          (a b : JClient),
        jSortedClients f d l = some out → List.Sublist [a, b] l →
        jClientCompareOpt f d a b = some 0 →
        List.Sublist [a, b] out) := by
  constructor
  · intro f d l a b hsub heq
    apply stableSort_pair_stable
    · simp [heq]
    · exact hsub
  · intro f d l out a b hout hsub heq
    refine stableSortM_pair_stable _ l out a b ?_ hsub hout
    simp [heq]

/-- C4 witness: the spec's example in both tables — two devices with the
same sort value, sorted by that value descending, keep their input order
(`b` stays before `a`); the vanilla instance also shows the completed-sort
hypothesis is satisfiable. -/
theorem sort_stable_both_witness :
    List.Sublist [exTieB, exTieA]
        (sortedClients .downloadSpeed .desc [exTieB, exTieA]) ∧
      List.Sublist [jTieB, jTieA] [jTieB, jTieA] :=
  ⟨sort_stable_both.1 .downloadSpeed .desc [exTieB, exTieA] exTieB exTieA
      (List.Sublist.refl _) (by decide),
    sort_stable_both.2 .downloadSpeed .desc [jTieB, jTieA] [jTieB, jTieA]
      jTieB jTieA (by decide) (List.Sublist.refl _) (by decide)⟩

/-! ## Claim C5 — devices with missing field values -/

/-- C5 counterexample: a device with no hostname sorts under the key
"unknown" (the `shortHostname` fallback), not the empty string the claim
states: ascending by display name the code places it after "alpha", while
the claim's empty-string fallback would place it first. -/
theorem missing_name_not_empty_string :
    sortedClients .hostname .asc [exAnon, exAlpha] = [exAlpha, exAnon] ∧
      specNameSortMissingEmpty .asc [exAnon, exAlpha] = [exAnon, exAlpha] ∧
      sortedClients .hostname .asc [exAnon, exAlpha] ≠
        specNameSortMissingEmpty .asc [exAnon, exAlpha] := by
  decide

/-- C5 (amended): a device whose display name is missing (or empty) sorts
under the key "unknown" — the `shortHostname` fallback, case-folded — not
the empty string.  In the untyped vanilla table a missing numeric field is
coerced by `|| ''` to the empty string, exactly as a present `0` is (the
two are indistinguishable to the comparator): ascending, it ties with a
present `0` and compares strictly below every present nonzero value;
descending against a present nonzero value the comparator throws (the
string branch calls `localeCompare` on a number) and the sort produces no
output.  A device with missing values is never excluded from an output that
is produced: the typed sort always permutes its input, and the vanilla sort
permutes its input whenever it completes. -/
theorem missing_values_sort_behavior :
    nameKey none = "unknown" ∧
      nameKey (some "") = "unknown" ∧
      (∀ (ip mac hn : Option String) (dl ul us : Option Int),
        jFieldVal .downloadSpeed ⟨ip, mac, hn, dl, ul, none, us⟩ = .str "") ∧
      jsFalsyNum none = jsFalsyNum (some 0) ∧
      (∀ n : Int, jvalCompareOpt .asc (jsFalsyNum none) (jsFalsyNum (some n)) =
        some (if n = 0 then 0 else -1)) ∧
      (∀ n : Int, n = 0 ∨
        jvalCompareOpt .desc (jsFalsyNum none) (jsFalsyNum (some n)) = none) ∧
      (∀ (f : SortField) (d : SortDirection) (l : List Client),
        List.Perm (sortedClients f d l) l) ∧
      (∀ (f : SortField) (d : SortDirection) (l out : List JClient),
        jSortedClients f d l = some out → List.Perm out l) := by
  refine ⟨by decide, by decide, ?_, rfl, ?_, ?_, ?_, ?_⟩
  · intro ip mac hn dl ul us
    rfl
  · intro n
    by_cases h : n = 0
    · subst h
      decide
    · simp only [jsFalsyNum, if_neg h]
      exact jvalCompareOpt_empty_lt_num n
  · intro n
    by_cases h : n = 0
    · exact Or.inl h
    · right
      simp [jsFalsyNum, if_neg h, jvalCompareOpt]
  · intro f d l
    exact stableSort_perm _ l
  · intro f d l out hout
    exact stableSortM_perm _ l out hout

/-- C5 witness: a concrete completed vanilla sort over a device with a
missing rate — it sorts ahead of the nonzero-rate device ascending, is not
excluded, and the output permutes the input. -/
theorem missing_values_sort_behavior_witness :
    List.Perm [jMissing, jFive] [jMissing, jFive] :=
  missing_values_sort_behavior.2.2.2.2.2.2.2 .downloadSpeed .asc
    [jMissing, jFive] [jMissing, jFive] (by decide)

/-! ## Claim C6 — chart vertical scale -/

/-- C6: for every non-empty history the chart's vertical scale denominator
is the maximum of all download and upload values floored at 1: it bounds
every value of both series, equals 1 or is attained by some value, and is
at least 1 — in particular strictly positive, so `v / maxValue` never
divides by zero. -/
theorem chart_max_value_floor (hist : List Snap) (_hne : hist ≠ []) :
    1 ≤ chartMaxValue hist ∧ 0 < chartMaxValue hist ∧
      (∀ v ∈ allChartValues hist, v ≤ chartMaxValue hist) ∧
      (chartMaxValue hist = 1 ∨ chartMaxValue hist ∈ allChartValues hist) := by
  refine ⟨le_foldl_max _ 1, lt_of_lt_of_le one_pos (le_foldl_max _ 1), ?_,
    foldl_max_mem _ 1⟩
  intro v hv
  exact mem_le_foldl_max _ 1 v hv

/-- C6 witness: on the all-zero single-snapshot history the denominator
facts hold concretely (there the maximum value is the floor 1). -/
theorem chart_max_value_floor_witness :
    1 ≤ chartMaxValue [⟨0, 0, 0⟩] ∧ 0 < chartMaxValue [⟨0, 0, 0⟩] ∧
      (∀ v ∈ allChartValues [⟨0, 0, 0⟩], v ≤ chartMaxValue [⟨0, 0, 0⟩]) ∧
      (chartMaxValue [⟨0, 0, 0⟩] = 1 ∨
        chartMaxValue [⟨0, 0, 0⟩] ∈ allChartValues [⟨0, 0, 0⟩]) :=
  chart_max_value_floor [⟨0, 0, 0⟩] (by decide)

/-! ## Claim C7 — chart renderer total on degenerate input -/

/-- C7: on an empty history the renderer draws nothing; on a single point it
still draws both series and the horizontal step divisor is 1; and for every
non-empty history the divisor equals `max (k-1) 1` and both divisors of the
coordinate mapping (step divisor and scale denominator) are strictly
positive — the computation is division-by-zero free. -/
theorem chart_degenerate_safe :
    (∀ dims : ChartDims, updateChart [] dims = []) ∧
      (∀ (s : Snap) (dims : ChartDims),
        (updateChart [s] dims).length = 2 ∧ chartStepDivisor [s] = 1) ∧
      (∀ hist : List Snap, hist ≠ [] →
        chartStepDivisor hist = max (hist.length - 1) 1 ∧
          0 < chartStepDivisor hist ∧ 0 < chartMaxValue hist) := by
  refine ⟨fun dims => rfl, fun s dims => ⟨rfl, rfl⟩, ?_⟩
  intro hist hne
  have hlen : 1 ≤ hist.length := List.length_pos.mpr hne
  refine ⟨?_, ?_, lt_of_lt_of_le one_pos (le_foldl_max _ 1)⟩
  · unfold chartStepDivisor
    by_cases h : hist.length - 1 = 0
    · rw [if_pos h, h]
      decide
    · rw [if_neg h]
      exact (Nat.max_eq_left (by omega)).symm
  · unfold chartStepDivisor
    by_cases h : hist.length - 1 = 0
    · rw [if_pos h]
      decide
    · rw [if_neg h]
      omega

/-- C7 witness: the divisor facts at a concrete three-point history. -/
theorem chart_degenerate_safe_witness :
    chartStepDivisor [⟨0, 1, 2⟩, ⟨1, 3, 4⟩, ⟨2, 5, 6⟩] =
        max (([⟨0, 1, 2⟩, ⟨1, 3, 4⟩, ⟨2, 5, 6⟩] : List Snap).length - 1) 1 ∧
      0 < chartStepDivisor [⟨0, 1, 2⟩, ⟨1, 3, 4⟩, ⟨2, 5, 6⟩] ∧
      0 < chartMaxValue [⟨0, 1, 2⟩, ⟨1, 3, 4⟩, ⟨2, 5, 6⟩] :=
  chart_degenerate_safe.2.2 [⟨0, 1, 2⟩, ⟨1, 3, 4⟩, ⟨2, 5, 6⟩] (by decide)

/-! ## Claim C8 — stat aggregation -/

/-- C8: the totals are pure sums over the device list — cumulative download,
cumulative upload, and their combination (which always equals download +
upload), plus the instantaneous rate sums of the React stat cards; the
empty list yields all-zero totals, and the spec's two-device example yields
`{download: 300, upload: 75, combined: 375}`. -/
theorem totals_pure_sums : ∀ l : List Client,
    (totalTraffic l).download = (l.map (fun c => c.download)).sum ∧
      (totalTraffic l).upload = (l.map (fun c => c.upload)).sum ∧
      (totalTraffic l).combined =
        (totalTraffic l).download + (totalTraffic l).upload ∧
      totalDownloadSpeed l = (l.map (fun c => c.downloadSpeed)).sum ∧
      totalUploadSpeed l = (l.map (fun c => c.uploadSpeed)).sum ∧
      totalTraffic [] = ⟨0, 0, 0⟩ ∧
      totalTraffic [exTot1, exTot2] = ⟨300, 75, 375⟩ := by
  intro l
  refine ⟨?_, ?_, ?_, ?_, ?_, rfl, by decide⟩
  · show l.foldl (fun s c => s + c.download) 0 = _
    rw [foldl_add_eq_sum]
    ring
  · show l.foldl (fun s c => s + c.upload) 0 = _
    rw [foldl_add_eq_sum]
    ring
  · show l.foldl (fun s c => s + c.download + c.upload) 0 =
      l.foldl (fun s c => s + c.download) 0 + l.foldl (fun s c => s + c.upload) 0
    have hf : (fun (s : Int) (c : Client) => s + c.download + c.upload) =
        fun (s : Int) (c : Client) => s + (c.download + c.upload) := by
      funext s c
      ring
    rw [hf, foldl_add_eq_sum, foldl_add_eq_sum, foldl_add_eq_sum,
      sum_map_add_fields]
    ring
  · rw [totalDownloadSpeed, foldl_add_eq_sum]
    ring
  · rw [totalUploadSpeed, foldl_add_eq_sum]
    ring

/-! ## Claim C9 — display-name normalization -/

/-- C9 counterexample: the code's name key is not trimmed — " Router" and
"router" have equal keys under the claim's trimmed normalization, but the
code's comparator does not tie them (the leading space survives
`shortHostname` and `toLowerCase`). -/
theorem name_key_not_trimmed :
    specTrimmedNameKey " Router" = specTrimmedNameKey "router" ∧
      clientCompare .hostname .asc exSpaced exRouter ≠ 0 := by
  decide

/-- C9 (amended): display-name sorting compares a normalized key that is
case-folded and domain-suffix-stripped (but not trimmed): "Router.local"
and "router" produce equal keys, equal keys always compare as a tie in
either direction, and in particular the code ties the "Router.local" and
"router" devices. -/
theorem name_key_casefold_stripped :
    nameKey (some "Router.local") = nameKey (some "router") ∧
      nameKey (some "ROUTER") = nameKey (some "router") ∧
      (∀ (a b : Client) (d : SortDirection),
        nameKey a.hostname = nameKey b.hostname →
        clientCompare .hostname d a b = 0) ∧
      clientCompare .hostname .asc exRouterLocal exRouter = 0 := by
  refine ⟨by decide, by decide, ?_, by decide⟩
  intro a b d h
  show strCompare d (nameKey a.hostname) (nameKey b.hostname) = 0
  rw [h]
  exact strCompare_self d _

/-- C9 witness: the equal-key tie applied concretely, descending. -/
theorem name_key_casefold_stripped_witness :
    clientCompare .hostname .desc exRouterLocal exRouter = 0 :=
  name_key_casefold_stripped.2.2.1 exRouterLocal exRouter .desc (by decide)

/-! ## Claim C10 — sort-spec transition -/

/-- C10: clicking the active sort field keeps the field and flips the
direction; clicking a different field selects it and resets the direction
to descending. -/
theorem handleSort_transition :
    ∀ (s : SortState) (f : SortField),
      (s.field = f ∧ (handleSort s f).field = s.field ∧
        (handleSort s f).dir = flipDir s.dir) ∨
      (s.field ≠ f ∧ (handleSort s f).field = f ∧
        (handleSort s f).dir = .desc) := by
  intro s f
  by_cases h : s.field = f
  · left
    refine ⟨h, ?_, ?_⟩
    · simp [handleSort, h]
    · cases hd : s.dir <;> simp [handleSort, h, flipDir, hd]
  · right
    exact ⟨h, by simp [handleSort, h], by simp [handleSort, h]⟩

end Bandix
